import Mathlib

/-!
Verification development for the manager-report survey pipeline
(`data_processor.py` and the analysis helpers in `app.py`).

Numeric cell values are modelled as rationals (`ℚ`); a missing value
(pandas `NaN`) is modelled as `none` in `Option ℚ`, so that "NaN-skipping"
operations become operations on the `some` entries of a list of options.
-/

namespace ManagerReport

/-! ### Python string primitives -/

/-- Characters removed by Python `str.strip()` (whitespace). -/
def pyWS (c : Char) : Bool := c.isWhitespace

/-- Left strip on the character list. -/
def pyStripLeft (l : List Char) : List Char := l.dropWhile pyWS

/-- Right strip on the character list. -/
def pyStripRight (l : List Char) : List Char := (l.reverse.dropWhile pyWS).reverse

/-- Both-sides strip on the character list. -/
def pyStripChars (l : List Char) : List Char := pyStripRight (pyStripLeft l)

/-- Python `str.strip()`: remove leading and trailing whitespace. -/
def pyStrip (s : String) : String := ⟨pyStripChars s.data⟩

/-- Does `n` occur as a contiguous run inside `h`? -/
def listInfix (n : List Char) : List Char → Bool
  | [] => n.isEmpty
  | c :: t => n.isPrefixOf (c :: t) || listInfix n t

/-- Python's substring test `needle in hay`. -/
def occursIn (needle hay : String) : Bool := listInfix needle.data hay.data

/-- Python slicing `s[:n]` (first `n` characters). -/
def pyTake (s : String) (n : Nat) : String := ⟨s.data.take n⟩

/-! ### Numeric parsing (model of `pd.to_numeric(errors="coerce")`) -/

/-- Value of a decimal digit character, if it is one. -/
def digitVal (c : Char) : Option Nat :=
  if c.isDigit then some (c.toNat - 48) else none

/-- Accumulating parser for a digit run. -/
def parseNatAux : Nat → List Char → Option Nat
  | acc, [] => some acc
  | acc, c :: cs =>
    match digitVal c with
    | some d => parseNatAux (acc * 10 + d) cs
    | none => none

/-- Parse a nonempty run of decimal digits. -/
def parseNatChars (l : List Char) : Option Nat :=
  if l.isEmpty then none else parseNatAux 0 l

/-- Parse an unsigned decimal literal (`"12"`, `"12.5"`, `".5"`, `"5."`). -/
def parseUnsigned (l : List Char) : Option ℚ :=
  match l.splitOn '.' with
  | [ip] => (parseNatChars ip).map (fun n => (n : ℚ))
  | [ip, fp] =>
    if ip.isEmpty && fp.isEmpty then none
    else
      match (if ip.isEmpty then some 0 else parseNatAux 0 ip),
            (if fp.isEmpty then some 0 else parseNatAux 0 fp) with
      | some i, some f => some ((i : ℚ) + (f : ℚ) / ((10 : ℚ) ^ fp.length))
      | _, _ => none
  | _ => none

/-- Model of `pd.to_numeric(errors="coerce")` applied to one (already
stripped) string: plain decimal literals with an optional sign parse to
their value, everything else (including `"nan"`) coerces to missing.
Scientific notation and infinities are omitted; they play no role in any
claim. -/
def parseDecimal (s : String) : Option ℚ :=
  match s.data with
  | '-' :: rest => (parseUnsigned rest).map (fun q => -q)
  | '+' :: rest => parseUnsigned rest
  | l => parseUnsigned l

/-! ### Raw cells and tables -/

/-- A raw spreadsheet cell: a string, a number, or missing (`NaN`). -/
inductive RawCell where
  | str (s : String)
  | num (q : ℚ)
  | missing
deriving DecidableEq, Repr

/-- A raw table: column headers plus rows; each row maps a column header to
its raw cell value (the spec's RawTable: "each row is a mapping from
column-header-string to a raw cell value"). -/
structure RawTable where
  cols : List String
  rows : List (List (String × RawCell))
deriving Repr

/-- Look a cell up in a row by column header; absent headers read as missing. -/
def getCell (row : List (String × RawCell)) (c : String) : RawCell :=
  match row.find? (fun p => p.1 == c) with
  | some p => p.2
  | none => .missing

/-! ### Configuration tables -/

/-- Modelled from the spec: `config.py` (which `data_processor.py` imports
for `SCORE_MAP`) is not among the provided source files. The spec fixes
ScoreMap as a mapping from five textual scale labels to the integers 1..5
("totally/always=5 … never=1"); the label texts follow the fallback table
hard-coded in `pdf_generator.py` (`{"总是如此": 5, "经常如此": 4,
"有时如此": 3, "很少如此": 2, "从未展现": 1}`). -/
def SCORE_MAP : List (String × ℚ) :=
  [("总是如此", 5), ("经常如此", 4), ("有时如此", 3), ("很少如此", 2), ("从未展现", 1)]

/-- First-match lookup in an association list (Python `dict` lookup once the
dict has unique keys; also the ScoreMap lookup). -/
def lookupAssoc (m : List (String × α)) (k : String) : Option α :=
  (m.find? (fun p => p.1 == k)).map (fun p => p.2)

/-! ### `data_processor.clean_and_score` and its helpers -/

/-- One scored cell of `clean_and_score`.  In the source the per-column
pipeline is: object-dtype columns are `astype(str).str.strip()`-ed, then the
whole frame is `replace(SCORE_MAP)`-d, then each column goes through
`pd.to_numeric(errors="coerce")`.  Per cell this collapses to: a missing
cell stays missing (in an object column it becomes the string `"nan"`, which
`to_numeric` coerces back to `NaN`); a numeric cell passes through unchanged
(`replace` keys are strings; in an object column `str()` and `to_numeric`
round-trip the number); a string cell is stripped, looked up in ScoreMap,
and otherwise handed to `to_numeric`. -/
def cleanCell (sm : List (String × ℚ)) (c : RawCell) : Option ℚ :=
  match c with
  | .missing => none
  | .num q => some q
  | .str s =>
    let t := pyStrip s
    match lookupAssoc sm t with
    | some v => some v
    | none => parseDecimal t

/-- `data_processor.find_question_columns`: for each catalog entry
`(keyword, dimension, behavior)` in declaration order, bind it to the first
column whose stripped header contains the keyword as a substring; entries
with no matching column are skipped. -/
def find_question_columns (catalog : List (String × String × String))
    (cols : List String) : List (String × String × String) :=
  catalog.filterMap fun e =>
    (cols.find? (fun c => occursIn e.1 (pyStrip c))).map fun c => (c, e.2.1, e.2.2)

/-- Python `dict` insertion: an existing key keeps its position and gets the
new value, a new key is appended. -/
def pyDictInsert (d : List (String × α)) (k : String) (v : α) : List (String × α) :=
  if d.any (fun p => p.1 == k) then d.map (fun p => if p.1 == k then (p.1, v) else p)
  else d ++ [(k, v)]

/-- Python dict built from a sequence of key/value bindings (the semantics of
the comprehension `{col: (cat, be) for col, cat, be in cols_mapping}`). -/
def pyDict (l : List (String × α)) : List (String × α) :=
  l.foldl (fun d p => pyDictInsert d p.1 p.2) []

/-- The ways `clean_and_score` can fail to return a scored table:
`noMatchingColumns` is the deliberate `return None, [], []` when no catalog
entry matched any column; `duplicatedColumn` is the uncaught exception path:
when two catalog entries bind the same column, `question_cols` contains a
duplicate label, `df[question_cols]` has duplicated columns, and
`df_q[c].dtype` (a DataFrame, not a Series) raises `AttributeError` before
`col_to_cat_be` is ever built. -/
inductive CleanError where
  | noMatchingColumns
  | duplicatedColumn
deriving DecidableEq, Repr

/-- `data_processor.clean_and_score`: fails with `noMatchingColumns` when no
catalog entry matched any column; crashes with `duplicatedColumn` when the
bound column names `question_cols` contain a duplicate (two entries claimed
one column — the cleaning loop then raises before anything is returned);
otherwise returns the scored rows (one scored column per entry of
`cols_mapping`, keyed by the bound column header), the column→
(dimension, behavior) dict, and the meta columns. -/
def clean_and_score (sm : List (String × ℚ)) (catalog : List (String × String × String))
    (t : RawTable) :
    Except CleanError
      (List (List (String × Option ℚ)) × List (String × String × String) × List String) :=
  let cm := find_question_columns catalog t.cols
  if cm.isEmpty then .error .noMatchingColumns
  else if (cm.map (fun e => e.1)).Nodup then
    let qcols := cm.map (fun e => e.1)
    let nameCol := (["填写人", "姓名", "学员姓名"].find? (fun c => t.cols.contains c))
    let meta := t.cols.filter (fun c => !(qcols.contains c))
    let meta :=
      match nameCol with
      | some nc => if meta.contains nc then meta else meta ++ [nc]
      | none => meta
    .ok (t.rows.map (fun row => cm.map fun e => (e.1, cleanCell sm (getCell row e.1))),
         pyDict cm, meta)
  else .error .duplicatedColumn

/-! ### Means and aggregation (`data_processor.py`) -/

/-- NaN-skipping mean: the arithmetic mean of the non-missing entries, or
missing when there is none.  This is the common core of `np.mean` on the
collected non-NaN values (guarded by the source's `if row[cat] else np.nan`)
and of pandas `mean` with its default `skipna=True`. -/
def optMean (l : List (Option ℚ)) : Option ℚ :=
  let v := l.filterMap id
  if v.isEmpty then none else some (v.sum / v.length)

/-- `df_scores.loc[idx, col]` on a scored row: value of the named column. -/
def rowVal (row : List (String × Option ℚ)) (c : String) : Option ℚ :=
  match row.find? (fun p => p.1 == c) with
  | some p => p.2
  | none => none

/-- The distinct values of a list, keeping first occurrences in order (the
key order of the Python row dict built in `compute_dimension_scores`). -/
def dedupFirst : List String → List String
  | [] => []
  | a :: l => a :: (dedupFirst l).filter (fun b => !(b == a))

/-- The dimensions named by a column→(dimension, behavior) dict, in first-
appearance order. -/
def dimsOf (ctb : List (String × String × String)) : List String :=
  dedupFirst (ctb.map (fun e => e.2.1))

/-- One row of `data_processor.compute_dimension_scores`: for each dimension
(in first-appearance order of `col_to_cat_be`), collect the row's non-missing
values of the columns tagged with it and take their mean, `NaN` when the
collection is empty. -/
def dimScoreRow (ctb : List (String × String × String))
    (row : List (String × Option ℚ)) : List (String × Option ℚ) :=
  (dimsOf ctb).map fun cat =>
    (cat, optMean ((ctb.filter (fun e => e.2.1 == cat)).map (fun e => rowVal row e.1)))

/-- `data_processor.compute_dimension_scores`: per-respondent per-dimension
mean table. -/
def compute_dimension_scores (ctb : List (String × String × String))
    (rows : List (List (String × Option ℚ))) : List (List (String × Option ℚ)) :=
  rows.map (dimScoreRow ctb)

/-- Per-person total of `data_processor.get_person_total_and_dims`:
`df_scores.mean(axis=1)`, the NaN-skipping mean over all matched columns of
one respondent. -/
def person_total (row : List (String × Option ℚ)) : Option ℚ :=
  optMean (row.map (fun p => p.2))

/-- The `total` series of `get_person_total_and_dims` (the function's other
component only reorders the dimension table's columns by `CATEGORY_ORDER`,
which plays no role in any claim). -/
def person_totals (rows : List (List (String × Option ℚ))) : List (Option ℚ) :=
  rows.map person_total

/-- Population per-dimension mean: `df_dims[cat].mean()` as taken in
`app.py`, a NaN-skipping mean of the dimension's column of the
`compute_dimension_scores` table. -/
def pop_dim_mean (ctb : List (String × String × String))
    (rows : List (List (String × Option ℚ))) (cat : String) : Option ℚ :=
  optMean ((compute_dimension_scores ctb rows).map (fun r => (rowVal r cat)))

/-! ### Anomaly detection (`app.py`, Tab 5) -/

/-- The per-respondent test of the anomaly loop: `valid = row.dropna()`;
flag when `len(valid) >= 1 and valid.nunique() == 1`, carrying
`float(valid.iloc[0])` (the single uniform value). -/
def uniformCheck (vals : List (Option ℚ)) : Option ℚ :=
  let valid := vals.filterMap id
  if 1 ≤ valid.length ∧ valid.dedup.length = 1 then valid.head? else none

/-- Index-carrying loop of the anomaly scan. -/
def anomaly_rows_aux (i : Nat) : List (List (Option ℚ)) → List (Nat × ℚ)
  | [] => []
  | r :: rs =>
    (match uniformCheck r with
     | some v => [(i, v)]
     | none => []) ++ anomaly_rows_aux (i + 1) rs

/-- The `anomaly_rows` list built in `app.py`: scan the scored rows in row
order and emit `(index, uniform value)` for each flagged respondent. -/
def anomaly_rows (rows : List (List (Option ℚ))) : List (Nat × ℚ) :=
  anomaly_rows_aux 0 rows

/-! ### Pain-point text mining (`app.py`) -/

/-- The elements of the `PAIN_POINT_TRIGGERS` set literal in `app.py`, in
declared textual order.  The Python object is a `set`, so the program fixes
its membership but not its iteration order. -/
def PAIN_POINT_TRIGGERS : List String :=
  ["难", "不足", "缺乏", "希望", "需要", "问题", "挑战", "压力", "不够", "改善", "提升",
   "困惑", "不知道", "平衡", "时间", "精力", "带人", "管人", "辅导", "反馈", "授权",
   "激励", "任务", "沟通", "下属", "团队", "学习", "成长", "期待", "担心", "焦虑",
   "协调", "冲突", "效率", "方法", "技巧", "经验", "能力", "加强", "更多", "管理",
   "改进", "完善", "支持", "帮助", "指导", "培养", "发展", "角色", "转型"]

/-- Priority order on triggers: `a` before `b` when `b` is no longer than
`a` (descending length; on ties the earlier element stays first). -/
def lenGE (a b : String) : Prop := b.length ≤ a.length

instance : DecidableRel lenGE := fun a b => Nat.decLe b.length a.length

instance : IsTotal String lenGE := ⟨fun a b => le_total b.length a.length⟩

instance : IsTrans String lenGE :=
  ⟨fun _ _ _ hab hbc => le_trans hbc hab⟩

/-- `TRIGGER_ORDER = sorted(PAIN_POINT_TRIGGERS, key=len, reverse=True)`:
a stable descending-by-length sort of whatever enumeration the trigger set
yields.  Python's `sorted` is stable (also under `reverse=True`); it is
modelled by a stable insertion sort with the same ordering.  `enum` is the
iteration order the set happens to produce: a permutation of
`PAIN_POINT_TRIGGERS` that the program does not fix. -/
def trigger_order (enum : List String) : List String :=
  List.insertionSort lenGE enum

/-- `_primary_trigger`: the first trigger in the priority list that occurs
in the phrase, if any. -/
def primary_trigger (phrase : String) (ord : List String) : Option String :=
  ord.find? (fun t => occursIn t phrase)

/-- Replace the full-width sentence terminators `。！？；` by newlines
(`re.sub(r"[。！？；]", "\n", text)`). -/
def replacePunct (s : String) : String :=
  ⟨s.data.map (fun c =>
    if c == '。' || c == '！' || c == '？' || c == '；' then '\n' else c)⟩

/-- Collapse runs of newlines (`re.sub(r"\n+", "\n", raw)`). -/
def collapseNL : List Char → List Char
  | [] => []
  | [c] => [c]
  | a :: b :: rest =>
    if a == '\n' && b == '\n' then collapseNL (b :: rest)
    else a :: collapseNL (b :: rest)

/-- Python `raw.split("\n")` on the character list: split at every newline,
keeping empty segments. -/
def splitNL : List Char → List (List Char)
  | [] => [[]]
  | c :: rest =>
    if c == '\n' then [] :: splitNL rest
    else
      match splitNL rest with
      | seg :: segs => (c :: seg) :: segs
      | [] => [[c]]

/-- The accepting loop of `_extract_pain_point_phrases`: stop once `maxP`
phrases are collected; accept a segment when some trigger occurs in it and
its first-50-character dedup key is new. -/
def extract_pain_point_aux (triggers : List String) (maxP : Nat) :
    List String → List String → List String → List String
  | [], _, out => out
  | s :: rest, seen, out =>
    if maxP ≤ out.length then out
    else if triggers.any (fun t => occursIn t s) then
      let key := pyTake s 50
      if seen.contains key then extract_pain_point_aux triggers maxP rest seen out
      else extract_pain_point_aux triggers maxP rest (key :: seen) (out ++ [s])
    else extract_pain_point_aux triggers maxP rest seen out

/-- `_extract_pain_point_phrases`: blank text yields nothing; otherwise
replace sentence terminators by newlines, collapse newline runs, strip,
split on newlines, trim each segment and keep those of length ≥ 4, then run
the accepting loop. -/
def extract_pain_point_phrases (triggers : List String) (text : String)
    (maxP : Nat) : List String :=
  if (pyStrip text).data.isEmpty then []
  else
    let raw := pyStrip ⟨collapseNL (replacePunct text).data⟩
    let segments := ((splitNL raw.data).map (fun l => pyStrip ⟨l⟩)).filter
      (fun s => 4 ≤ s.length)
    extract_pain_point_aux triggers maxP segments [] []

/-! ### Phrase deduplication (`app.py`, `_dedupe_similar`) -/

/-- `set(p)`: the distinct characters of a phrase. -/
def charSet (s : String) : List Char := s.data.dedup

/-- The similarity measure of `_dedupe_similar`:
`len(set_p & set_k) / max(len(set_p), len(set_k), 1)`. -/
def setOverlap (a b : String) : ℚ :=
  (((charSet a).filter (fun c => (charSet b).contains c)).length : ℚ) /
    ((max (max (charSet a).length (charSet b).length) 1 : Nat) : ℚ)

/-- The duplicate test against one kept representative: substring in either
direction, or overlap at least the threshold. -/
def isDupPhrase (thr : ℚ) (p k : String) : Bool :=
  occursIn p k || occursIn k p || decide (thr ≤ setOverlap p k)

/-- The walk of `_dedupe_similar` over the length-sorted list: trim, skip
phrases shorter than 3 characters, keep a phrase that duplicates no kept
representative, stop once `maxR` are kept. -/
def dedupe_aux (thr : ℚ) (maxR : Nat) : List String → List String → List String
  | [], kept => kept
  | p :: rest, kept =>
    let pc := pyStrip p
    if pc.length < 3 then dedupe_aux thr maxR rest kept
    else
      let kept' := if kept.any (fun k => isDupPhrase thr pc k) then kept
        else kept ++ [pc]
      if maxR ≤ kept'.length then kept' else dedupe_aux thr maxR rest kept'

/-- `_dedupe_similar(phrases, max_repr, sim_threshold)`: sort by length
descending (stable, as Python's `sorted(key=len, reverse=True)`), walk, and
return at most `maxR` representatives. -/
def dedupe_similar (phrases : List String) (maxR : Nat) (thr : ℚ) : List String :=
  if phrases.isEmpty then []
  else (dedupe_aux thr maxR (List.insertionSort lenGE phrases) []).take maxR

/-! ### Helper lemmas -/

/-- Dropping twice with the same predicate is dropping once. -/
theorem dropWhile_idem (p : Char → Bool) (l : List Char) :
    (l.dropWhile p).dropWhile p = l.dropWhile p := by
  induction l with
  | nil => rfl
  | cons a l ih =>
    by_cases h : p a
    · simpa [List.dropWhile_cons, h] using ih
    · simp [List.dropWhile_cons, h]

/-- Right strip is idempotent. -/
theorem pyStripRight_idem (l : List Char) :
    pyStripRight (pyStripRight l) = pyStripRight l := by
  simp [pyStripRight, List.reverse_reverse, dropWhile_idem]

/-- Dropping from a list ending in a character that survives keeps that
final character. -/
theorem dropWhile_append_last (p : Char → Bool) (c : Char) (hc : p c = false) :
    ∀ ys : List Char, ∃ zs, (ys ++ [c]).dropWhile p = zs ++ [c] := by
  intro ys
  induction ys with
  | nil => exact ⟨[], by simp [List.dropWhile_cons, hc]⟩
  | cons y ys ih =>
    by_cases h : p y
    · simpa [List.dropWhile_cons, h] using ih
    · exact ⟨y :: ys, by simp [List.dropWhile_cons, h]⟩

/-- Left-then-right strip is idempotent. -/
theorem pyStripChars_idem (l : List Char) :
    pyStripChars (pyStripChars l) = pyStripChars l := by
  unfold pyStripChars
  rcases hd : pyStripLeft l with _ | ⟨c, t⟩
  · simp [pyStripRight, pyStripLeft]
  · have hc : pyWS c = false := by
      have := List.head?_dropWhile_not pyWS l
      rw [show l.dropWhile pyWS = c :: t from hd] at this
      simpa using this
    rcases hsr : pyStripRight (c :: t) with _ | ⟨c', t'⟩
    · simp [pyStripLeft, pyStripRight]
    · have hcc : c' = c ∧ pyWS c' = false := by
        unfold pyStripRight at hsr
        obtain ⟨zs, hz⟩ := dropWhile_append_last pyWS c hc t.reverse
        rw [show (c :: t).reverse = t.reverse ++ [c] by simp, hz] at hsr
        have h2 : c :: zs.reverse = c' :: t' := by simpa using hsr
        have h3 : c' = c := ((List.cons.injEq c zs.reverse c' t').mp h2).1.symm
        exact ⟨h3, h3 ▸ hc⟩
      have hleft : pyStripLeft (c' :: t') = c' :: t' := by
        simp [pyStripLeft, List.dropWhile_cons, hcc.2]
      rw [hleft, ← hsr, pyStripRight_idem]

/-- Python `strip` is idempotent: a stripped string is its own strip. -/
theorem pyStrip_idem (s : String) : pyStrip (pyStrip s) = pyStrip s := by
  simp [pyStrip, pyStripChars_idem]

/-- A nodup list whose members are exactly `a` is `[a]`. -/
theorem nodup_all_eq_singleton {α : Type} {l : List α} {a : α} (hn : l.Nodup)
    (ha : a ∈ l) (hall : ∀ x ∈ l, x = a) : l = [a] := by
  cases l with
  | nil => cases ha
  | cons b t =>
    have hb : b = a := hall b (List.mem_cons_self b t)
    cases t with
    | nil => rw [hb]
    | cons c t' =>
      exfalso
      have hc : c = a := hall c (by simp)
      have : b ∈ c :: t' := by rw [hb, ← hc]; simp
      exact (List.nodup_cons.mp hn).1 this

/-- `nunique == 1` on the non-missing values means: nonempty, all equal. -/
theorem dedup_length_one_iff {l : List ℚ} :
    l.dedup.length = 1 ↔ ∃ a, a ∈ l ∧ ∀ x ∈ l, x = a := by
  constructor
  · intro h
    obtain ⟨a, ha⟩ := List.length_eq_one.mp h
    refine ⟨a, ?_, ?_⟩
    · have : a ∈ l.dedup := by rw [ha]; simp
      exact List.mem_dedup.mp this
    · intro x hx
      have : x ∈ l.dedup := List.mem_dedup.mpr hx
      rw [ha] at this; simpa using this
  · rintro ⟨a, ha, hall⟩
    have h1 : l.dedup = [a] :=
      nodup_all_eq_singleton l.nodup_dedup (List.mem_dedup.mpr ha)
        (fun x hx => hall x (List.mem_dedup.mp hx))
    rw [h1]; rfl

/-- Characterisation of the per-respondent anomaly test. -/
theorem uniformCheck_eq_some {vals : List (Option ℚ)} {v : ℚ} :
    uniformCheck vals = some v ↔
      v ∈ vals.filterMap id ∧ ∀ x ∈ vals.filterMap id, x = v := by
  unfold uniformCheck
  by_cases h : 1 ≤ (vals.filterMap id).length ∧ (vals.filterMap id).dedup.length = 1
  · simp only [if_pos h]
    obtain ⟨a, ha, hall⟩ := dedup_length_one_iff.mp h.2
    constructor
    · intro hh
      have hv : v ∈ vals.filterMap id := by
        cases hm : vals.filterMap id with
        | nil => rw [hm] at hh; cases hh
        | cons b t =>
          rw [hm] at hh; simp at hh; rw [← hh]; exact List.mem_cons_self b t
      exact ⟨hv, fun x hx => by rw [hall x hx, hall v hv]⟩
    · rintro ⟨hv, hvall⟩
      cases hm : vals.filterMap id with
      | nil => rw [hm] at hv; cases hv
      | cons b t =>
        have : b = v := hvall b (by rw [hm]; simp)
        simp [this]
  · simp only [if_neg h]
    constructor
    · intro hh; cases hh
    · rintro ⟨hv, hvall⟩
      exfalso; apply h
      constructor
      · cases hm : vals.filterMap id with
        | nil => rw [hm] at hv; cases hv
        | cons b t => simp
      · exact dedup_length_one_iff.mpr ⟨v, hv, hvall⟩

/-- Membership in the anomaly scan, with explicit index arithmetic. -/
theorem anomaly_rows_aux_mem (rs : List (List (Option ℚ))) :
    ∀ (i j : Nat) (v : ℚ), (j, v) ∈ anomaly_rows_aux i rs ↔
      ∃ k r, rs[k]? = some r ∧ j = i + k ∧ uniformCheck r = some v := by
  induction rs with
  | nil => intro i j v; simp [anomaly_rows_aux]
  | cons r rs ih =>
    intro i j v
    constructor
    · intro h
      unfold anomaly_rows_aux at h
      rcases List.mem_append.mp h with h1 | h2
      · rcases hu : uniformCheck r with _ | w
        · rw [hu] at h1; cases h1
        · rw [hu] at h1
          simp only [List.mem_singleton] at h1
          obtain ⟨hj, hv⟩ := Prod.mk.injEq .. ▸ h1
          exact ⟨0, r, by simp, by omega, by rw [hu, hv]⟩
      · obtain ⟨k, r', hget, hj, hc⟩ := (ih (i + 1) j v).mp h2
        exact ⟨k + 1, r', by simpa using hget, by omega, hc⟩
    · rintro ⟨k, r', hget, hj, hc⟩
      unfold anomaly_rows_aux
      apply List.mem_append.mpr
      cases k with
      | zero =>
        left
        simp only [List.getElem?_cons_zero, Option.some.injEq] at hget
        rw [← hget] at hc
        rw [hc]
        simp [hj]
      | succ k' =>
        right
        apply (ih (i + 1) j v).mpr
        exact ⟨k', r', by simpa using hget, by omega, hc⟩

/-- Every index in the anomaly scan with start `i` is at least `i`. -/
theorem anomaly_rows_aux_ge (rs : List (List (Option ℚ))) :
    ∀ i, ∀ p ∈ anomaly_rows_aux i rs, i ≤ p.1 := by
  induction rs with
  | nil => intro i p hp; cases hp
  | cons r rs ih =>
    intro i p hp
    unfold anomaly_rows_aux at hp
    rcases List.mem_append.mp hp with h1 | h2
    · rcases hu : uniformCheck r with _ | w
      · rw [hu] at h1; cases h1
      · rw [hu] at h1; simp only [List.mem_singleton] at h1; rw [h1]
    · exact Nat.le_of_succ_le (ih (i + 1) p h2)

/-- The anomaly scan emits strictly increasing indices (row order). -/
theorem anomaly_rows_aux_pairwise (rs : List (List (Option ℚ))) :
    ∀ i, (anomaly_rows_aux i rs).Pairwise (fun p q => p.1 < q.1) := by
  induction rs with
  | nil => intro i; simp [anomaly_rows_aux]
  | cons r rs ih =>
    intro i
    unfold anomaly_rows_aux
    apply List.pairwise_append.mpr
    refine ⟨?_, ih (i + 1), ?_⟩
    · rcases uniformCheck r with _ | w <;> simp
    · intro a ha b hb
      have hb' : i + 1 ≤ b.1 := anomaly_rows_aux_ge rs (i + 1) b hb
      rcases hu : uniformCheck r with _ | w
      · rw [hu] at ha; cases ha
      · rw [hu] at ha; simp only [List.mem_singleton] at ha
        rw [ha]; omega

/-- C7: the anomaly detector flags a respondent exactly when the multiset of
non-missing scored values is nonempty with exactly one distinct value, the
emitted record carries that uniform value, emission follows row order, and
the spec's three concrete cases behave as stated ({4}↦flag 4, {3,3,4}↦no
flag, {5,5,5}↦flag 5). -/
theorem c7_theorem (rows : List (List (Option ℚ))) :
    (∀ i v, (i, v) ∈ anomaly_rows rows ↔
      ∃ r, rows[i]? = some r ∧ v ∈ r.filterMap id ∧ ∀ x ∈ r.filterMap id, x = v)
    ∧ (anomaly_rows rows).Pairwise (fun p q => p.1 < q.1)
    ∧ anomaly_rows [[some 4]] = [(0, 4)]
    ∧ anomaly_rows [[some 3, some 3, some 4]] = []
    ∧ anomaly_rows [[some 5, some 5, some 5]] = [(0, 5)] := by
  refine ⟨?_, anomaly_rows_aux_pairwise rows 0, by decide, by decide, by decide⟩
  intro i v
  rw [anomaly_rows, anomaly_rows_aux_mem rows 0 i v]
  constructor
  · rintro ⟨k, r, hget, hj, hc⟩
    have hk : k = i := by omega
    rw [hk] at hget
    obtain ⟨hv, hall⟩ := uniformCheck_eq_some.mp hc
    exact ⟨r, hget, hv, hall⟩
  · rintro ⟨r, hget, hv, hall⟩
    exact ⟨i, r, hget, by omega, uniformCheck_eq_some.mpr ⟨hv, hall⟩⟩

/-- C7 witness: a respondent whose single answered question is 4 is flagged
with value 4. -/
theorem c7_witness : ((0 : Nat), (4 : ℚ)) ∈ anomaly_rows [[some 4]] := by
  have h := (c7_theorem [[some 4]]).1 0 4
  exact h.mpr ⟨[some 4], by decide, by decide, by decide⟩

/-! ### Person totals (C5) and dimension scores (C6) -/

/-- Evaluation rule for the NaN-skipping mean on a nonempty value list. -/
theorem optMean_eq (l : List (Option ℚ)) (v : List ℚ) (h : l.filterMap id = v)
    (hne : v ≠ []) : optMean l = some (v.sum / v.length) := by
  unfold optMean
  rw [h]
  have hf : v.isEmpty = false := by
    rw [Bool.eq_false_iff]
    intro hc
    exact hne (List.isEmpty_iff.mp hc)
  simp only [hf]
  rfl

/-- Evaluation rule for the NaN-skipping mean with no non-missing value. -/
theorem optMean_eq_none (l : List (Option ℚ)) (h : l.filterMap id = []) :
    optMean l = none := by
  unfold optMean
  rw [h]
  rfl

/-- Example column→(dimension, behavior) dict: two columns in dimension `A`,
one in dimension `B`. -/
def exCtb : List (String × String × String) :=
  [("q1", "A", "b1"), ("q2", "A", "b2"), ("q3", "B", "b3")]

/-- Example scored row: scores 1, 1 in dimension `A` and 4 in dimension `B`. -/
def exRow : List (String × Option ℚ) :=
  [("q1", some 1), ("q2", some 1), ("q3", some 4)]

/-- C5: each entry of the person-total series is the flat NaN-skipping mean
of that respondent's matched-column values (missing when all are missing);
it is not the mean of the respondent's per-dimension means (witnessed by a
row where the two differ); and recomputation is identical. -/
theorem c5_theorem :
    (∀ (rows : List (List (String × Option ℚ))) (i : Nat) row,
      rows[i]? = some row →
      (person_totals rows)[i]? = some
        (if ((row.map Prod.snd).filterMap id).isEmpty then none
         else some (((row.map Prod.snd).filterMap id).sum /
           ((row.map Prod.snd).filterMap id).length)))
    ∧ person_total exRow ≠ optMean ((dimScoreRow exCtb exRow).map Prod.snd)
    ∧ ∀ rows, person_totals rows = person_totals rows := by
  have hflat : person_total exRow = some 2 := by
    unfold person_total
    rw [optMean_eq (exRow.map Prod.snd) [1, 1, 4] (by decide) (by decide)]
    norm_num
  have hmom : optMean ((dimScoreRow exCtb exRow).map Prod.snd) = some (5 / 2 : ℚ) := by
    have e1 : optMean [some (1 : ℚ), some 1] = some (1 : ℚ) := by
      rw [optMean_eq [some (1 : ℚ), some 1] [1, 1] (by decide) (by decide)]
      norm_num
    have e2 : optMean [some (4 : ℚ)] = some (4 : ℚ) := by
      rw [optMean_eq [some (4 : ℚ)] [4] (by decide) (by decide)]
      norm_num
    rw [show (dimScoreRow exCtb exRow).map Prod.snd =
      [optMean [some 1, some 1], optMean [some 4]] from rfl]
    rw [e1, e2]
    rw [optMean_eq [some (1 : ℚ), some (4 : ℚ)] [1, 4] (by simp) (by simp)]
    norm_num
  refine ⟨?_, by rw [hflat, hmom]; intro hcon; rw [Option.some_inj] at hcon; norm_num at hcon,
    fun rows => rfl⟩
  intro rows i row h
  unfold person_totals
  rw [List.getElem?_map, h]
  rfl

/-- C5 witness: the characterisation evaluated on the concrete example row. -/
theorem c5_witness :
    (person_totals [exRow])[0]? = some
      (if ((exRow.map Prod.snd).filterMap id).isEmpty then none
       else some (((exRow.map Prod.snd).filterMap id).sum /
         ((exRow.map Prod.snd).filterMap id).length)) :=
  c5_theorem.1 [exRow] 0 exRow rfl

/-- Looking up a key that occurs in the key list of a `(k, f k)` table finds
its tabulated value. -/
theorem find_map_key (ks : List String) (f : String → Option ℚ) (c : String)
    (h : c ∈ ks) :
    (ks.map (fun k => (k, f k))).find? (fun p => p.1 == c) = some (c, f c) := by
  induction ks with
  | nil => cases h
  | cons a ks ih =>
    by_cases hac : a = c
    · simp [List.find?, hac]
    · rw [List.map_cons, List.find?_cons_of_neg, ih (by
        rcases List.mem_cons.mp h with h1 | h2
        · exact absurd h1.symm hac
        · exact h2)]
      simpa using hac

/-- The non-missing values of the columns tagged with dimension `cat`. -/
def taggedVals (ctb : List (String × String × String))
    (row : List (String × Option ℚ)) (cat : String) : List ℚ :=
  ((ctb.filter (fun e => e.2.1 == cat)).map (fun e => rowVal row e.1)).filterMap id

/-- Keys of a dimension-score row are exactly `dimsOf ctb`, and each carries
the NaN-skipping mean of its tagged columns. -/
theorem dimScoreRow_lookup (ctb : List (String × String × String))
    (row : List (String × Option ℚ)) (cat : String) (h : cat ∈ dimsOf ctb) :
    lookupAssoc (dimScoreRow ctb row) cat =
      some (optMean ((ctb.filter (fun e => e.2.1 == cat)).map
        (fun e => rowVal row e.1))) := by
  unfold lookupAssoc dimScoreRow
  rw [find_map_key (dimsOf ctb) _ cat h]
  rfl

/-- `df_dims[cat]` reads the stored (possibly missing) dimension value. -/
theorem rowVal_eq_join (r : List (String × Option ℚ)) (c : String) :
    rowVal r c = (lookupAssoc r c).join := by
  unfold rowVal lookupAssoc
  cases h : r.find? (fun p => p.1 == c) <;> simp

/-- C6: with at least one non-missing tagged column the per-dimension score
is present and equals the arithmetic mean of those values; with none it is
present and missing (NaN) — in particular never zero; and a missing entry is
skipped, not zero-filled and without failure, by the NaN-skipping population
mean. -/
theorem c6_theorem :
    (∀ ctb (row : List (String × Option ℚ)) cat, cat ∈ dimsOf ctb →
      (taggedVals ctb row cat = [] →
        lookupAssoc (dimScoreRow ctb row) cat = some none)
      ∧ (taggedVals ctb row cat ≠ [] →
        lookupAssoc (dimScoreRow ctb row) cat =
          some (some ((taggedVals ctb row cat).sum / (taggedVals ctb row cat).length))))
    ∧ (∀ l : List (Option ℚ), optMean (none :: l) = optMean l)
    ∧ (∀ ctb (row : List (String × Option ℚ)) rows cat, cat ∈ dimsOf ctb →
        taggedVals ctb row cat = [] →
        pop_dim_mean ctb (row :: rows) cat = pop_dim_mean ctb rows cat) := by
  have hmean : ∀ l : List (Option ℚ), optMean (none :: l) = optMean l := by
    intro l
    unfold optMean
    simp
  have hzero : ∀ ctb (row : List (String × Option ℚ)) cat,
      taggedVals ctb row cat = [] →
      optMean ((ctb.filter (fun e => e.2.1 == cat)).map (fun e => rowVal row e.1)) = none :=
    fun ctb row cat hz => optMean_eq_none _ hz
  have hrow : ∀ ctb (row : List (String × Option ℚ)) cat, cat ∈ dimsOf ctb →
      taggedVals ctb row cat = [] → rowVal (dimScoreRow ctb row) cat = none := by
    intro ctb row cat hc hz
    rw [rowVal_eq_join, dimScoreRow_lookup ctb row cat hc, hzero ctb row cat hz]
    rfl
  refine ⟨?_, hmean, ?_⟩
  · intro ctb row cat h
    constructor
    · intro hz
      rw [dimScoreRow_lookup ctb row cat h, hzero ctb row cat hz]
    · intro hnz
      rw [dimScoreRow_lookup ctb row cat h,
        optMean_eq _ (taggedVals ctb row cat) rfl hnz]
  · intro ctb row rows cat hc hz
    unfold pop_dim_mean compute_dimension_scores
    rw [List.map_cons, List.map_cons]
    rw [hrow ctb row cat hc hz]
    exact hmean _

/-- C6 witness: on the example row with no value in a fresh dimension the
score is NaN, and population means skip it. -/
theorem c6_witness :
    lookupAssoc (dimScoreRow exCtb [("q1", none), ("q2", none), ("q3", some 2)]) "A" =
      some none := by
  have h := (c6_theorem.1 exCtb [("q1", none), ("q2", none), ("q3", some 2)] "A"
    (by decide)).1
  exact h (by decide)

/-! ### Cleaning failure condition (C4) and scored-value range (C1) -/

/-- No catalog entry binds a column exactly when no keyword occurs in any
stripped header. -/
theorem find_question_columns_eq_nil (catalog : List (String × String × String))
    (cols : List String) :
    (find_question_columns catalog cols = [] ↔
      ∀ e ∈ catalog, ∀ c ∈ cols, occursIn e.1 (pyStrip c) = false) := by
  unfold find_question_columns
  rw [List.filterMap_eq_nil_iff]
  constructor
  · intro h e he c hc
    have h1 := h e he
    rw [Option.map_eq_none', List.find?_eq_none] at h1
    simpa using h1 c hc
  · intro h e he
    rw [Option.map_eq_none', List.find?_eq_none]
    intro c hc
    simp [h e he c hc]

/-- Whenever two catalog entries bind the same column, `clean_and_score`
takes the crash path: the duplicated label in `question_cols` makes
`df_q[c].dtype` raise before anything is returned. -/
theorem clean_and_score_dup_error (sm : List (String × ℚ))
    (catalog : List (String × String × String)) (t : RawTable)
    (hnd : ¬((find_question_columns catalog t.cols).map (fun e => e.1)).Nodup) :
    clean_and_score sm catalog t = Except.error CleanError.duplicatedColumn := by
  unfold clean_and_score
  have hne : ¬(find_question_columns catalog t.cols).isEmpty := by
    intro hcon
    apply hnd
    rw [List.isEmpty_iff.mp hcon]
    exact List.nodup_nil
  rw [if_neg hne, if_neg hnd]

/-- Concrete raw table whose single column `"ab"` is claimed by both
entries of `c2Catalog` (defined below): the cleaning loop crashes on it. -/
def dupTable : RawTable := ⟨["ab"], [[("ab", RawCell.str "总是如此")]]⟩

/-- C4 counterexample: at least one catalog entry matches a column (in fact
both do), yet no ScoredTable and no tag mapping are returned — the cleaning
loop raises on the doubly-claimed column instead. -/
theorem c4_counterexample :
    clean_and_score SCORE_MAP [("a", "D1", "B1"), ("b", "D2", "B2")] dupTable =
      Except.error CleanError.duplicatedColumn ∧
    occursIn "a" (pyStrip "ab") = true ∧
    (("a", "D1", "B1") ∈ [("a", "D1", "B1"), ("b", "D2", "B2")]) ∧
    "ab" ∈ dupTable.cols := by
  exact ⟨rfl, by decide, by decide, by decide⟩

/-- C4 amended: the cleaning step returns the no-survey-table failure
signal (`noMatchingColumns`, the source's `None`) if and only if zero
catalog entries match any (stripped) column header; whenever at least one
entry matches AND no column is claimed by two entries, a scored table, tag
mapping, and meta-column list are returned; when several entries claim one
column the function instead raises an uncaught `AttributeError`
(`duplicatedColumn`) and returns nothing. -/
theorem c4_theorem :
    (∀ (sm : List (String × ℚ)) catalog (t : RawTable),
      (clean_and_score sm catalog t = Except.error CleanError.noMatchingColumns ↔
        ∀ e ∈ catalog, ∀ c ∈ t.cols, occursIn e.1 (pyStrip c) = false))
    ∧ (∀ (sm : List (String × ℚ)) catalog (t : RawTable),
      (∃ e ∈ catalog, ∃ c ∈ t.cols, occursIn e.1 (pyStrip c) = true) →
        ((find_question_columns catalog t.cols).map (fun e => e.1)).Nodup →
        ∃ out, clean_and_score sm catalog t = Except.ok out)
    ∧ (∀ (sm : List (String × ℚ)) catalog (t : RawTable),
      ¬((find_question_columns catalog t.cols).map (fun e => e.1)).Nodup →
        clean_and_score sm catalog t = Except.error CleanError.duplicatedColumn) := by
  refine ⟨?_, ?_, ?_⟩
  · intro sm catalog t
    unfold clean_and_score
    by_cases h : (find_question_columns catalog t.cols).isEmpty
    · rw [if_pos h]
      simp only [true_iff]
      exact (find_question_columns_eq_nil catalog t.cols).mp (List.isEmpty_iff.mp h)
    · rw [if_neg h]
      constructor
      · intro hc
        by_cases hnd : ((find_question_columns catalog t.cols).map (fun e => e.1)).Nodup
        · rw [if_pos hnd] at hc
          cases hc
        · rw [if_neg hnd] at hc
          cases hc
      · intro hall
        exfalso
        apply h
        rw [List.isEmpty_iff]
        exact (find_question_columns_eq_nil catalog t.cols).mpr hall
  · rintro sm catalog t ⟨e, he, c, hc, hocc⟩ hnd
    unfold clean_and_score
    have hne : ¬(find_question_columns catalog t.cols).isEmpty := by
      intro hcon
      have h0 := (find_question_columns_eq_nil catalog t.cols).mp
        (List.isEmpty_iff.mp hcon) e he c hc
      rw [hocc] at h0
      cases h0
    rw [if_neg hne, if_pos hnd]
    exact ⟨_, rfl⟩
  · intro sm catalog t hnd
    exact clean_and_score_dup_error sm catalog t hnd

/-- C4 witness: on a one-column table matching the one-entry catalog (no
double claim), the cleaner returns a result. -/
theorem c4_witness :
    ∃ out, clean_and_score SCORE_MAP [("题", "维度", "行为")]
      ⟨["题1"], [[("题1", RawCell.str "总是如此")]]⟩ = Except.ok out :=
  c4_theorem.2.1 SCORE_MAP [("题", "维度", "行为")] _
    ⟨("题", "维度", "行为"), by decide, "题1", by decide, by decide⟩ (by decide)

/-- Concrete catalog for the C1 counterexample. -/
def cxCatalog : List (String × String × String) := [("题", "维度", "行为")]

/-- Concrete raw table for the C1 counterexample: the single matched column
holds the numeric-looking string `"7"`, which is not a ScoreMap label. -/
def cxTable : RawTable := ⟨["题1"], [[("题1", RawCell.str "7")]]⟩

/-- C1 counterexample: a numeric-looking string outside the ScoreMap does
not become missing — `pd.to_numeric` passes it through — so the scored
table holds the value 7, which is neither missing nor in {1,2,3,4,5}. -/
theorem c1_counterexample :
    clean_and_score SCORE_MAP cxCatalog cxTable =
      Except.ok ([[("题1", some 7)]], [("题1", "维度", "行为")], []) ∧
    ¬((7 : ℚ) = 1 ∨ (7 : ℚ) = 2 ∨ (7 : ℚ) = 3 ∨ (7 : ℚ) = 4 ∨ (7 : ℚ) = 5) := by
  exact ⟨rfl, by decide⟩

/-- The scored rows of a successful `clean_and_score`: one cleaned cell per
matched entry, taken from the raw row of the same index. -/
theorem clean_and_score_ok_fst (sm : List (String × ℚ))
    (catalog : List (String × String × String)) (t : RawTable)
    (out : List (List (String × Option ℚ)) × List (String × String × String) × List String)
    (h : clean_and_score sm catalog t = Except.ok out) :
    out.1 = t.rows.map (fun row => (find_question_columns catalog t.cols).map fun e =>
      (e.1, cleanCell sm (getCell row e.1))) := by
  unfold clean_and_score at h
  by_cases hc : (find_question_columns catalog t.cols).isEmpty
  · rw [if_pos hc] at h
    cases h
  · rw [if_neg hc] at h
    by_cases hnd : ((find_question_columns catalog t.cols).map (fun e => e.1)).Nodup
    · rw [if_pos hnd] at h
      simp only [Except.ok.injEq] at h
      rw [← h]
    · rw [if_neg hnd] at h
      cases h

/-- C1 amended: every scored cell is missing, or a ScoreMap value (hence an
integer in {1,2,3,4,5} for any map with values in that set), or the raw
cell's own number passed through unchanged (numeric cells, and string cells
outside the ScoreMap that parse as numbers via `pd.to_numeric`); and every
value of the table produced by `clean_and_score` is such a cleaned cell of
the corresponding raw cell. -/
theorem c1_theorem (sm : List (String × ℚ))
    (hsm : ∀ p ∈ sm, p.2 = 1 ∨ p.2 = 2 ∨ p.2 = 3 ∨ p.2 = 4 ∨ p.2 = 5) :
    (∀ c : RawCell,
      cleanCell sm c = none ∨
      (cleanCell sm c = some 1 ∨ cleanCell sm c = some 2 ∨ cleanCell sm c = some 3 ∨
        cleanCell sm c = some 4 ∨ cleanCell sm c = some 5) ∨
      (∃ s, c = RawCell.str s ∧ lookupAssoc sm (pyStrip s) = none ∧
        cleanCell sm c = parseDecimal (pyStrip s)) ∨
      (∃ n, c = RawCell.num n ∧ cleanCell sm c = some n))
    ∧ (∀ catalog (t : RawTable) out, clean_and_score sm catalog t = Except.ok out →
        ∀ (i : Nat) (row : List (String × Option ℚ)), out.1[i]? = some row →
          ∃ rawRow, t.rows[i]? = some rawRow ∧
            ∀ q ∈ row, q.2 = cleanCell sm (getCell rawRow q.1)) := by
  constructor
  · intro c
    match c with
    | RawCell.missing => exact Or.inl rfl
    | RawCell.num q => exact Or.inr (Or.inr (Or.inr ⟨q, rfl, rfl⟩))
    | RawCell.str s =>
      cases hl : lookupAssoc sm (pyStrip s) with
      | none =>
        refine Or.inr (Or.inr (Or.inl ⟨s, rfl, hl, ?_⟩))
        simp [cleanCell, hl]
      | some v =>
        refine Or.inr (Or.inl ?_)
        have hv : cleanCell sm (RawCell.str s) = some v := by
          simp [cleanCell, hl]
        obtain ⟨p, hp, hpv⟩ := Option.map_eq_some'.mp hl
        have hmem := List.mem_of_find?_eq_some hp
        rcases hsm p hmem with h | h | h | h | h
        · exact Or.inl (by rw [hv, ← hpv, h])
        · exact Or.inr (Or.inl (by rw [hv, ← hpv, h]))
        · exact Or.inr (Or.inr (Or.inl (by rw [hv, ← hpv, h])))
        · exact Or.inr (Or.inr (Or.inr (Or.inl (by rw [hv, ← hpv, h]))))
        · exact Or.inr (Or.inr (Or.inr (Or.inr (by rw [hv, ← hpv, h]))))
  · intro catalog t out hcs i row hrow
    have hfst := clean_and_score_ok_fst sm catalog t out hcs
    rw [hfst, List.getElem?_map] at hrow
    obtain ⟨rawRow, hraw, hfr⟩ := Option.map_eq_some'.mp hrow
    refine ⟨rawRow, hraw, ?_⟩
    intro q hq
    rw [← hfr] at hq
    obtain ⟨e, _, hqe⟩ := List.mem_map.mp hq
    rw [← hqe]

/-- C1 witness: the amended classification applied to a genuine label cell
under the spec-modelled ScoreMap. -/
theorem c1_witness :
    cleanCell SCORE_MAP (RawCell.str "总是如此") = none ∨
    (cleanCell SCORE_MAP (RawCell.str "总是如此") = some 1 ∨
      cleanCell SCORE_MAP (RawCell.str "总是如此") = some 2 ∨
      cleanCell SCORE_MAP (RawCell.str "总是如此") = some 3 ∨
      cleanCell SCORE_MAP (RawCell.str "总是如此") = some 4 ∨
      cleanCell SCORE_MAP (RawCell.str "总是如此") = some 5) ∨
    (∃ s, RawCell.str "总是如此" = RawCell.str s ∧
      lookupAssoc SCORE_MAP (pyStrip s) = none ∧
      cleanCell SCORE_MAP (RawCell.str "总是如此") = parseDecimal (pyStrip s)) ∨
    (∃ n, RawCell.str "总是如此" = RawCell.num n ∧
      cleanCell SCORE_MAP (RawCell.str "总是如此") = some n) :=
  (c1_theorem SCORE_MAP (by decide)).1 (RawCell.str "总是如此")

/-! ### Column matching and the column→tag dict (C2) -/

/-- Looking up after a value-updating map: the updated value under the
updated key, untouched elsewhere. -/
theorem lookupAssoc_map_upd {α : Type} (d : List (String × α)) (k0 : String)
    (v0 : α) (k : String) :
    lookupAssoc (d.map (fun p => if p.1 == k0 then (p.1, v0) else p)) k =
      if k = k0 then (lookupAssoc d k).map (fun _ => v0) else lookupAssoc d k := by
  induction d with
  | nil => by_cases h : k = k0 <;> simp [lookupAssoc, h]
  | cons p d ih =>
    by_cases hk : p.1 = k
    · by_cases hk0 : k = k0
      · have : (p.1 == k0) = true := by rw [beq_iff_eq, hk, hk0]
        simp [lookupAssoc, List.find?_cons, this, hk, hk0]
      · have : (p.1 == k0) = false := by
          rw [beq_eq_false_iff_ne]
          rw [hk]
          exact fun hc => hk0 hc
        simp [lookupAssoc, List.find?_cons, this, hk, hk0]
    · have hbk : (p.1 == k) = false := by rw [beq_eq_false_iff_ne]; exact hk
      unfold lookupAssoc at ih ⊢
      by_cases hpk0 : p.1 = k0
      · have h1 : (p.1 == k0) = true := by rw [beq_iff_eq]; exact hpk0
        rw [List.map_cons, if_pos h1, List.find?_cons, List.find?_cons]
        simp only [hbk]
        exact ih
      · have h1 : (p.1 == k0) = false := by rw [beq_eq_false_iff_ne]; exact hpk0
        rw [List.map_cons, if_neg (by rw [h1]; exact Bool.false_ne_true),
          List.find?_cons, List.find?_cons]
        simp only [hbk]
        exact ih

/-- Any-key presence gives a successful lookup. -/
theorem lookupAssoc_isSome_of_any {α : Type} (d : List (String × α)) (k : String)
    (h : d.any (fun p => p.1 == k) = true) : (lookupAssoc d k).isSome := by
  obtain ⟨p, hp, hpk⟩ := List.any_eq_true.mp h
  unfold lookupAssoc
  have hs : (List.find? (fun p => p.1 == k) d).isSome :=
    List.find?_isSome.mpr ⟨p, hp, hpk⟩
  obtain ⟨q, hq⟩ := Option.isSome_iff_exists.mp hs
  rw [hq]
  rfl

/-- Lookup after a Python dict insertion: the inserted key reads the new
value, all other keys are unchanged. -/
theorem lookup_pyDictInsert {α : Type} (d : List (String × α)) (k0 : String)
    (v0 : α) (k : String) :
    lookupAssoc (pyDictInsert d k0 v0) k =
      if k = k0 then some v0 else lookupAssoc d k := by
  unfold pyDictInsert
  by_cases hAny : d.any (fun p => p.1 == k0)
  · rw [if_pos hAny, lookupAssoc_map_upd]
    by_cases hk : k = k0
    · rw [if_pos hk, if_pos hk]
      have := lookupAssoc_isSome_of_any d k0 (by exact hAny)
      obtain ⟨v, hv⟩ := Option.isSome_iff_exists.mp this
      rw [hk, hv]
      rfl
    · rw [if_neg hk, if_neg hk]
  · rw [if_neg hAny]
    unfold lookupAssoc
    rw [List.find?_append]
    by_cases hk : k = k0
    · have hnone : d.find? (fun p => p.1 == k) = none := by
        rw [List.find?_eq_none]
        intro p hp hpk
        apply hAny
        rw [List.any_eq_true]
        exact ⟨p, hp, by rw [beq_iff_eq] at hpk ⊢; rw [hpk, hk]⟩
      subst hk
      rw [hnone]
      simp [List.find?]
    · cases hfd : d.find? (fun p => p.1 == k) with
      | some p => simp [hfd, hk]
      | none =>
        have hbeq : (k0 == k) = false := by
          rw [beq_eq_false_iff_ne]
          exact fun hc => hk hc.symm
        simp [hfd, List.find?, hbeq, hk]

/-- Lookup in a Python dict built by comprehension: the LAST binding of a
key wins. -/
theorem lookup_pyDict_last {α : Type} (l : List (String × α)) (k : String) :
    lookupAssoc (pyDict l) k =
      (l.reverse.find? (fun p => p.1 == k)).map (fun p => p.2) := by
  suffices h : ∀ (l : List (String × α)) (d : List (String × α)),
      lookupAssoc (l.foldl (fun d p => pyDictInsert d p.1 p.2) d) k =
        match l.reverse.find? (fun p => p.1 == k) with
        | some p => some p.2
        | none => lookupAssoc d k by
    have := h l []
    unfold pyDict
    rw [this]
    cases hf : l.reverse.find? (fun p => p.1 == k) with
    | some p => rfl
    | none => simp [lookupAssoc]
  intro l
  induction l with
  | nil => intro d; simp
  | cons p0 l ih =>
    intro d
    rw [List.foldl_cons, ih]
    rw [List.reverse_cons, List.find?_append]
    cases hf : l.reverse.find? (fun p => p.1 == k) with
    | some p => rfl
    | none =>
      by_cases hk : p0.1 = k
      · rw [lookup_pyDictInsert, if_pos hk.symm]
        have hb : (p0.1 == k) = true := by rw [beq_iff_eq]; exact hk
        simp [List.find?, hb]
      · rw [lookup_pyDictInsert, if_neg (fun hc => hk hc.symm)]
        have hb : (p0.1 == k) = false := by rw [beq_eq_false_iff_ne]; exact hk
        simp [List.find?, hb]

/-- In a list with pairwise-distinct keys, any entry is found by its key. -/
theorem find_unique_key {α : Type} (l : List (String × α))
    (hnd : (l.map Prod.fst).Nodup) (p : String × α) (hp : p ∈ l) :
    l.find? (fun q => q.1 == p.1) = some p := by
  induction l with
  | nil => cases hp
  | cons q l ih =>
    rw [List.map_cons, List.nodup_cons] at hnd
    by_cases hq : q.1 = p.1
    · have hqp : q = p := by
        rcases List.mem_cons.mp hp with h1 | h2
        · exact h1.symm
        · exfalso
          apply hnd.1
          rw [hq]
          exact List.mem_map.mpr ⟨p, h2, rfl⟩
      rw [List.find?_cons_of_pos _ (by rw [beq_iff_eq]; exact hq), hqp]
    · rcases List.mem_cons.mp hp with h1 | h2
      · exfalso
        exact hq (by rw [h1])
      · rw [List.find?_cons_of_neg _ (by rw [beq_iff_eq]; exact hq)]
        exact ih hnd.2 h2

/-- Concrete catalog for the C2 counterexample: two entries whose keywords
both occur in the single column header `"ab"`. -/
def c2Catalog : List (String × String × String) :=
  [("a", "D1", "B1"), ("b", "D2", "B2")]

/-- C2 counterexample: when one column satisfies two catalog entries, the
column appears once per entry in the ordered binding list, but no
column→tag mapping carrying any tag is ever returned: the cleaning step
crashes on the duplicated column before the dict comprehension runs, so
the column carries no tag at all — in particular not the first entry's. -/
theorem c2_counterexample :
    find_question_columns c2Catalog ["ab"] =
      [("ab", "D1", "B1"), ("ab", "D2", "B2")] ∧
    clean_and_score SCORE_MAP c2Catalog dupTable =
      Except.error CleanError.duplicatedColumn := by
  exact ⟨rfl, rfl⟩

/-- C2 amended: catalog entries are scanned in declaration order and each
entry binds to the first column whose stripped header contains its keyword;
when every bound column is claimed by exactly one entry, the returned
column→tag dict carries that entry's tag; when one column satisfies two or
more entries, `clean_and_score` raises on the duplicated column and no
column→tag mapping is returned at all. -/
theorem c2_theorem (catalog : List (String × String × String)) (cols : List String) :
    (∀ kw cat be, (kw, cat, be) ∈ catalog →
      ∀ c0 ∈ cols, occursIn kw (pyStrip c0) = true →
        ∃ c, cols.find? (fun x => occursIn kw (pyStrip x)) = some c ∧
          (c, cat, be) ∈ find_question_columns catalog cols)
    ∧ (∀ col cat be,
        ((find_question_columns catalog cols).map (fun e => e.1)).Nodup →
        (col, cat, be) ∈ find_question_columns catalog cols →
        lookupAssoc (pyDict (find_question_columns catalog cols)) col =
          some (cat, be))
    ∧ (∀ (sm : List (String × ℚ)) (t : RawTable), t.cols = cols →
        ¬((find_question_columns catalog cols).map (fun e => e.1)).Nodup →
        clean_and_score sm catalog t = Except.error CleanError.duplicatedColumn) := by
  refine ⟨?_, ?_, ?_⟩
  · intro kw cat be hmem c0 hc0 hocc
    have hsome : (cols.find? (fun x => occursIn kw (pyStrip x))).isSome := by
      rw [List.find?_isSome]
      exact ⟨c0, hc0, hocc⟩
    obtain ⟨c, hc⟩ := Option.isSome_iff_exists.mp hsome
    refine ⟨c, hc, ?_⟩
    unfold find_question_columns
    apply List.mem_filterMap.mpr
    exact ⟨(kw, cat, be), hmem, by rw [hc]; rfl⟩
  · intro col cat be hnd hmem
    rw [lookup_pyDict_last]
    have hndrev : ((find_question_columns catalog cols).reverse.map Prod.fst).Nodup := by
      rw [List.map_reverse, List.nodup_reverse]
      exact hnd
    have hmemrev : (col, cat, be) ∈ (find_question_columns catalog cols).reverse :=
      List.mem_reverse.mpr hmem
    have h2 : (find_question_columns catalog cols).reverse.find?
        (fun p => p.1 == col) = some (col, cat, be) :=
      find_unique_key _ hndrev (col, cat, be) hmemrev
    rw [h2]
    rfl
  · intro sm t hcols hnd
    apply clean_and_score_dup_error
    rw [hcols]
    exact hnd

/-- C2 witness: on the two-entry catalog the first entry binds the doubly-
claimed column, and with a single-entry catalog (unique binding) the bound
column's tag in the dict is that entry's tag. -/
theorem c2_witness : (("ab", "D1", "B1") ∈ find_question_columns c2Catalog ["ab"])
    ∧ lookupAssoc (pyDict (find_question_columns [("a", "D1", "B1")] ["ab"])) "ab" =
      some ("D1", "B1") := by
  constructor
  · obtain ⟨c, hc, hmem⟩ := (c2_theorem c2Catalog ["ab"]).1 "a" "D1" "B1"
      (by decide) "ab" (by decide) (by decide)
    have hcab : c = "ab" := by
      have h2 : some c = some "ab" := by
        rw [← hc]
        rfl
      exact Option.some_inj.mp h2
    rw [hcab] at hmem
    exact hmem
  · exact (c2_theorem [("a", "D1", "B1")] ["ab"]).2.1 "ab" "D1" "B1"
      (by decide) (by decide)

/-! ### Theme classification (C3) -/

/-- In a list sorted by descending length, the first hit of a predicate has
maximal length among all hits. -/
theorem find_sorted_max (l : List String) (p : String → Bool) (t : String)
    (hs : l.Pairwise lenGE) (h : l.find? p = some t) :
    ∀ u ∈ l, p u = true → u.length ≤ t.length := by
  induction l with
  | nil => cases h
  | cons a l ih =>
    by_cases hpa : p a
    · have hta : t = a := by
        rw [List.find?_cons_of_pos _ hpa] at h
        exact (Option.some_inj.mp h).symm
      intro u hu hpu
      rcases List.mem_cons.mp hu with h1 | h2
      · rw [h1, hta]
      · rw [hta]
        exact (List.pairwise_cons.mp hs).1 u h2
    · rw [List.find?_cons_of_neg _ (by simpa using hpa)] at h
      intro u hu hpu
      rcases List.mem_cons.mp hu with h1 | h2
      · rw [h1] at hpu
        exact absurd hpu (by simpa using hpa)
      · exact ih (List.pairwise_cons.mp hs).2 h u h2 hpu

/-- C3 amended: for a fixed enumeration of the trigger set, the classifier
is a deterministic function — the primary trigger is a trigger of the set
occurring in the phrase whose length is maximal among all matching
triggers, and no primary trigger exists exactly when no trigger matches.
(Which equal-length matching trigger wins depends on the enumeration the
Python set yields, which the program does not fix; see the
counterexample.) -/
theorem c3_theorem (enum : List String) (phrase : String) :
    (∀ t, primary_trigger phrase (trigger_order enum) = some t →
      t ∈ enum ∧ occursIn t phrase = true ∧
        ∀ u ∈ enum, occursIn u phrase = true → u.length ≤ t.length)
    ∧ (primary_trigger phrase (trigger_order enum) = none ↔
        ∀ u ∈ enum, occursIn u phrase = false) := by
  have hperm := List.perm_insertionSort lenGE enum
  have hsort : (trigger_order enum).Pairwise lenGE :=
    List.sorted_insertionSort lenGE enum
  constructor
  · intro t h
    unfold primary_trigger at h
    have hmem : t ∈ trigger_order enum := List.mem_of_find?_eq_some h
    have hocc : occursIn t phrase = true := by
      have h2 := List.find?_some h
      simpa using h2
    refine ⟨hperm.subset hmem, hocc, ?_⟩
    intro u hu hpu
    exact find_sorted_max _ _ t hsort h u (hperm.mem_iff.mpr hu) hpu
  · unfold primary_trigger
    rw [List.find?_eq_none]
    constructor
    · intro h u hu
      have := h u (hperm.mem_iff.mpr hu)
      simpa using this
    · intro h u hu
      simp [h u (hperm.subset hu)]

/-- The declared trigger elements other than `"时间"` and `"团队"`, in
declared order. -/
def restTriggers : List String :=
  ["难", "不足", "缺乏", "希望", "需要", "问题", "挑战", "压力", "不够", "改善", "提升",
   "困惑", "不知道", "平衡", "精力", "带人", "管人", "辅导", "反馈", "授权",
   "激励", "任务", "沟通", "下属", "学习", "成长", "期待", "担心", "焦虑",
   "协调", "冲突", "效率", "方法", "技巧", "经验", "能力", "加强", "更多", "管理",
   "改进", "完善", "支持", "帮助", "指导", "培养", "发展", "角色", "转型"]

/-- One possible iteration order of the trigger set. -/
def enumA : List String := "时间" :: "团队" :: restTriggers

/-- Another possible iteration order of the same trigger set. -/
def enumB : List String := "团队" :: "时间" :: restTriggers

/-- C3 counterexample: two enumerations of the same trigger set — both
permutations of the declared elements, hence both possible Python set
iteration orders — give the stable descending-length sort different tie
orders among the equal-length triggers `"时间"` and `"团队"`, so the same
phrase classifies to different primary triggers: the winner is not a
function of the trigger table alone, and ties do not follow declared
order. -/
theorem c3_counterexample :
    enumA.Perm enumB ∧ enumA.Perm PAIN_POINT_TRIGGERS ∧
    enumB.Perm PAIN_POINT_TRIGGERS ∧
    primary_trigger "这个时间和团队" (trigger_order enumA) = some "时间" ∧
    primary_trigger "这个时间和团队" (trigger_order enumB) = some "团队" ∧
    ("时间" : String) ≠ "团队" := by
  refine ⟨List.Perm.swap "团队" "时间" restTriggers, ?_, ?_, by decide, by decide, by decide⟩
  · decide
  · decide

/-- C3 witness: the amended characterisation applied to the declared
enumeration and a phrase of the spec. -/
theorem c3_witness : ("希望" ∈ PAIN_POINT_TRIGGERS) ∧
    occursIn "希望" "希望团队沟通更顺畅" = true := by
  have h := (c3_theorem PAIN_POINT_TRIGGERS "希望团队沟通更顺畅").1 "希望" (by decide)
  exact ⟨h.1, h.2.1⟩

/-! ### Pain-point extraction (C8) -/

/-- Anything the accepting loop emits was already accumulated or is a
trigger-containing input segment. -/
theorem extract_aux_mem (triggers : List String) (maxP : Nat) :
    ∀ (segs seen out : List String) (s : String),
      s ∈ extract_pain_point_aux triggers maxP segs seen out →
      s ∈ out ∨ (s ∈ segs ∧ triggers.any (fun t => occursIn t s) = true) := by
  intro segs
  induction segs with
  | nil =>
    intro seen out s h
    exact Or.inl (by simpa [extract_pain_point_aux] using h)
  | cons seg rest ih =>
    intro seen out s h
    unfold extract_pain_point_aux at h
    by_cases h1 : maxP ≤ out.length
    · rw [if_pos h1] at h
      exact Or.inl h
    · rw [if_neg h1] at h
      by_cases h2 : triggers.any (fun t => occursIn t seg)
      · rw [if_pos h2] at h
        by_cases h3 : seen.contains (pyTake seg 50)
        · rw [if_pos h3] at h
          rcases ih _ _ _ h with ha | hb
          · exact Or.inl ha
          · exact Or.inr ⟨List.mem_cons_of_mem _ hb.1, hb.2⟩
        · rw [if_neg h3] at h
          rcases ih _ _ _ h with ha | hb
          · rcases List.mem_append.mp ha with hc | hd
            · exact Or.inl hc
            · have hs : s = seg := by simpa using hd
              exact Or.inr ⟨by rw [hs]; exact List.mem_cons_self seg rest,
                by rw [hs]; exact h2⟩
          · exact Or.inr ⟨List.mem_cons_of_mem _ hb.1, hb.2⟩
      · rw [if_neg h2] at h
        rcases ih _ _ _ h with ha | hb
        · exact Or.inl ha
        · exact Or.inr ⟨List.mem_cons_of_mem _ hb.1, hb.2⟩

/-- The accepting loop never exceeds the maximum phrase count. -/
theorem extract_aux_len (triggers : List String) (maxP : Nat) :
    ∀ (segs seen out : List String), out.length ≤ maxP →
      (extract_pain_point_aux triggers maxP segs seen out).length ≤ maxP := by
  intro segs
  induction segs with
  | nil =>
    intro seen out h
    simpa [extract_pain_point_aux] using h
  | cons seg rest ih =>
    intro seen out h
    unfold extract_pain_point_aux
    by_cases h1 : maxP ≤ out.length
    · rw [if_pos h1]
      exact h
    · rw [if_neg h1]
      by_cases h2 : triggers.any (fun t => occursIn t seg)
      · rw [if_pos h2]
        by_cases h3 : (seen.contains (pyTake seg 50) : Bool)
        · rw [if_pos h3]
          exact ih seen out h
        · rw [if_neg h3]
          apply ih
          rw [List.length_append]
          simp only [List.length_singleton]
          omega
      · rw [if_neg h2]
        exact ih seen out h

/-- C8: the spec's concrete input yields exactly the two segments, in
order; and in general the extractor emits at most the maximum phrase count,
and every emitted phrase contains a trigger, is at least 4 characters long,
and is trimmed. -/
theorem c8_theorem :
    extract_pain_point_phrases PAIN_POINT_TRIGGERS
        "沟通不足，需要提升。时间不够，压力很大！" 30 =
      ["沟通不足，需要提升", "时间不够，压力很大"] ∧
    (∀ (triggers : List String) (text : String) (maxP : Nat),
      (extract_pain_point_phrases triggers text maxP).length ≤ maxP) ∧
    (∀ (triggers : List String) (text : String) (maxP : Nat) (s : String),
      s ∈ extract_pain_point_phrases triggers text maxP →
        triggers.any (fun t => occursIn t s) = true ∧ 4 ≤ s.length ∧
          pyStrip s = s) := by
  refine ⟨by decide, ?_, ?_⟩
  · intro triggers text maxP
    unfold extract_pain_point_phrases
    by_cases hc : (pyStrip text).data.isEmpty
    · rw [if_pos hc]
      exact Nat.zero_le maxP
    · rw [if_neg hc]
      exact extract_aux_len triggers maxP _ [] [] (Nat.zero_le maxP)
  · intro triggers text maxP s hs
    unfold extract_pain_point_phrases at hs
    by_cases hc : (pyStrip text).data.isEmpty
    · rw [if_pos hc] at hs
      cases hs
    · rw [if_neg hc] at hs
      have h0 := extract_aux_mem triggers maxP _ [] [] s hs
      rcases h0 with h1 | ⟨hseg, hany⟩
      · cases h1
      · have h2 := List.mem_filter.mp hseg
        have hlen : 4 ≤ s.length := by
          have := h2.2
          simpa using this
        obtain ⟨s0, _, hs0⟩ := List.mem_map.mp h2.1
        exact ⟨hany, hlen, by rw [← hs0, pyStrip_idem]⟩

/-- C8 witness: the general invariants evaluated on the first emitted
segment of the spec's concrete input. -/
theorem c8_witness :
    PAIN_POINT_TRIGGERS.any (fun t => occursIn t "沟通不足，需要提升") = true ∧
    4 ≤ ("沟通不足，需要提升" : String).length ∧
    pyStrip "沟通不足，需要提升" = "沟通不足，需要提升" :=
  c8_theorem.2.2 PAIN_POINT_TRIGGERS "沟通不足，需要提升。时间不够，压力很大！" 30
    "沟通不足，需要提升" (by rw [c8_theorem.1]; exact List.mem_cons_self _ _)

/-! ### Phrase deduplication (C9, C10) -/

/-- Unfolded step of the dedup walk (the `let`s of the definition spelled
out). -/
theorem dedupe_aux_cons_eq (thr : ℚ) (maxR : Nat) (p : String)
    (rest kept : List String) :
    dedupe_aux thr maxR (p :: rest) kept =
      if (pyStrip p).length < 3 then dedupe_aux thr maxR rest kept
      else if maxR ≤ ((if kept.any (fun k => isDupPhrase thr (pyStrip p) k) then kept
          else kept ++ [pyStrip p])).length then
        (if kept.any (fun k => isDupPhrase thr (pyStrip p) k) then kept
          else kept ++ [pyStrip p])
      else dedupe_aux thr maxR rest
        (if kept.any (fun k => isDupPhrase thr (pyStrip p) k) then kept
          else kept ++ [pyStrip p]) := rfl

/-- Counting the common distinct characters is symmetric. -/
theorem filter_mem_length_comm (A B : List Char) (hA : A.Nodup) (hB : B.Nodup) :
    (A.filter (fun c => B.contains c)).length =
      (B.filter (fun c => A.contains c)).length := by
  have h1 : (A.filter (fun c => B.contains c)).toFinset = A.toFinset ∩ B.toFinset := by
    ext c
    simp [List.mem_toFinset, List.mem_filter, List.contains, List.elem_eq_mem]
  have h2 : (B.filter (fun c => A.contains c)).toFinset = B.toFinset ∩ A.toFinset := by
    ext c
    simp [List.mem_toFinset, List.mem_filter, List.contains, List.elem_eq_mem]
  have hc1 : (A.filter (fun c => B.contains c)).length =
      ((A.filter (fun c => B.contains c)).toFinset).card :=
    (List.toFinset_card_of_nodup (hA.filter _)).symm
  have hc2 : (B.filter (fun c => A.contains c)).length =
      ((B.filter (fun c => A.contains c)).toFinset).card :=
    (List.toFinset_card_of_nodup (hB.filter _)).symm
  rw [hc1, hc2, h1, h2, Finset.inter_comm]

/-- The character-set overlap measure is symmetric. -/
theorem setOverlap_comm (a b : String) : setOverlap a b = setOverlap b a := by
  unfold setOverlap
  rw [filter_mem_length_comm (charSet a) (charSet b) (List.nodup_dedup _)
    (List.nodup_dedup _)]
  rw [Nat.max_comm (charSet a).length (charSet b).length]

/-- Every phrase the dedup walk returns was already kept or is the trim of
an input phrase. -/
theorem dedupe_aux_mem (thr : ℚ) (maxR : Nat) :
    ∀ (segs kept : List String) (p : String), p ∈ dedupe_aux thr maxR segs kept →
      p ∈ kept ∨ ∃ q ∈ segs, p = pyStrip q := by
  intro segs
  induction segs with
  | nil =>
    intro kept p h
    exact Or.inl (by simpa [dedupe_aux] using h)
  | cons q rest ih =>
    intro kept p h
    rw [dedupe_aux_cons_eq] at h
    by_cases h1 : (pyStrip q).length < 3
    · rw [if_pos h1] at h
      rcases ih kept p h with ha | ⟨q0, hq0, hpq0⟩
      · exact Or.inl ha
      · exact Or.inr ⟨q0, List.mem_cons_of_mem _ hq0, hpq0⟩
    · rw [if_neg h1] at h
      have hkept' : ∀ x, x ∈ (if kept.any (fun k => isDupPhrase thr (pyStrip q) k)
          then kept else kept ++ [pyStrip q]) →
          x ∈ kept ∨ ∃ q0 ∈ q :: rest, x = pyStrip q0 := by
        intro x hx
        by_cases h2 : kept.any (fun k => isDupPhrase thr (pyStrip q) k)
        · rw [if_pos h2] at hx
          exact Or.inl hx
        · rw [if_neg h2] at hx
          rcases List.mem_append.mp hx with hxa | hxb
          · exact Or.inl hxa
          · exact Or.inr ⟨q, List.mem_cons_self q rest, by simpa using hxb⟩
      by_cases h3 : maxR ≤ ((if kept.any (fun k => isDupPhrase thr (pyStrip q) k)
          then kept else kept ++ [pyStrip q])).length
      · rw [if_pos h3] at h
        exact hkept' p h
      · rw [if_neg h3] at h
        rcases ih _ p h with ha | ⟨q0, hq0, hpq0⟩
        · rcases hkept' p ha with hb | hc
          · exact Or.inl hb
          · exact Or.inr hc
        · exact Or.inr ⟨q0, List.mem_cons_of_mem _ hq0, hpq0⟩

/-- The dedup walk keeps only trimmed phrases of length at least 3. -/
theorem dedupe_aux_invariant (thr : ℚ) (maxR : Nat) :
    ∀ (segs kept : List String),
      (∀ p ∈ kept, pyStrip p = p ∧ 3 ≤ p.length) →
      ∀ p ∈ dedupe_aux thr maxR segs kept, pyStrip p = p ∧ 3 ≤ p.length := by
  intro segs
  induction segs with
  | nil =>
    intro kept hk p hp
    exact hk p (by simpa [dedupe_aux] using hp)
  | cons q rest ih =>
    intro kept hk p hp
    rw [dedupe_aux_cons_eq] at hp
    by_cases h1 : (pyStrip q).length < 3
    · rw [if_pos h1] at hp
      exact ih kept hk p hp
    · rw [if_neg h1] at hp
      have hk' : ∀ p ∈ (if kept.any (fun k => isDupPhrase thr (pyStrip q) k)
          then kept else kept ++ [pyStrip q]), pyStrip p = p ∧ 3 ≤ p.length := by
        intro x hx
        by_cases h2 : kept.any (fun k => isDupPhrase thr (pyStrip q) k)
        · rw [if_pos h2] at hx
          exact hk x hx
        · rw [if_neg h2] at hx
          rcases List.mem_append.mp hx with hxa | hxb
          · exact hk x hxa
          · have hxq : x = pyStrip q := by simpa using hxb
            exact ⟨by rw [hxq, pyStrip_idem], by rw [hxq]; omega⟩
      by_cases h3 : maxR ≤ ((if kept.any (fun k => isDupPhrase thr (pyStrip q) k)
          then kept else kept ++ [pyStrip q])).length
      · rw [if_pos h3] at hp
        exact hk' p hp
      · rw [if_neg h3] at hp
        exact ih _ hk' p hp

/-- The pairwise non-duplicate relation among kept representatives. -/
def notDup (t : ℚ) (a b : String) : Prop :=
  occursIn a b = false ∧ occursIn b a = false ∧ setOverlap a b < t

/-- A failed duplicate test yields the pairwise relation in both
directions. -/
theorem notDup_of_isDupPhrase_false {t : ℚ} {p k : String}
    (h : isDupPhrase t p k = false) : notDup t k p := by
  unfold isDupPhrase at h
  rw [Bool.or_eq_false_iff, Bool.or_eq_false_iff] at h
  obtain ⟨⟨h1, h2⟩, h3⟩ := h
  refine ⟨h2, h1, ?_⟩
  rw [setOverlap_comm]
  exact lt_of_not_le (of_decide_eq_false h3)

/-- The dedup walk preserves pairwise non-duplication of the kept list. -/
theorem dedupe_aux_pairwise (thr : ℚ) (maxR : Nat) :
    ∀ (segs kept : List String), kept.Pairwise (notDup thr) →
      (dedupe_aux thr maxR segs kept).Pairwise (notDup thr) := by
  intro segs
  induction segs with
  | nil =>
    intro kept hk
    simpa [dedupe_aux] using hk
  | cons q rest ih =>
    intro kept hk
    rw [dedupe_aux_cons_eq]
    by_cases h1 : (pyStrip q).length < 3
    · rw [if_pos h1]
      exact ih kept hk
    · rw [if_neg h1]
      have hk' : (if kept.any (fun k => isDupPhrase thr (pyStrip q) k)
          then kept else kept ++ [pyStrip q]).Pairwise (notDup thr) := by
        by_cases h2 : kept.any (fun k => isDupPhrase thr (pyStrip q) k)
        · rw [if_pos h2]
          exact hk
        · rw [if_neg h2]
          apply List.pairwise_append.mpr
          refine ⟨hk, List.pairwise_singleton _ _, ?_⟩
          intro a ha b hb
          have hb' : b = pyStrip q := by simpa using hb
          have h2' : kept.any (fun k => isDupPhrase thr (pyStrip q) k) = false :=
            Bool.eq_false_iff.mpr h2
          have hfalse : isDupPhrase thr (pyStrip q) a = false :=
            Bool.eq_false_iff.mpr (List.any_eq_false.mp h2' a ha)
          rw [hb']
          exact notDup_of_isDupPhrase_false hfalse
      by_cases h3 : maxR ≤ ((if kept.any (fun k => isDupPhrase thr (pyStrip q) k)
          then kept else kept ++ [pyStrip q])).length
      · rw [if_pos h3]
        exact hk'
      · rw [if_neg h3]
        exact ih _ hk'

/-- C9: on the spec's concrete input with threshold 0.55 and maximum 2, the
deduplicator returns exactly 2 representatives — the longer of the two
similar sentences is kept, the shorter one is dropped; and in general every
representative is the trim of an input phrase. -/
theorem c9_theorem :
    dedupe_similar ["需要加强沟通", "需要加强团队内部沟通", "完全不同的一句话在这里"] 2
        (55 / 100 : ℚ) =
      ["完全不同的一句话在这里", "需要加强团队内部沟通"] ∧
    "需要加强团队内部沟通" ∈ dedupe_similar
      ["需要加强沟通", "需要加强团队内部沟通", "完全不同的一句话在这里"] 2 (55 / 100 : ℚ) ∧
    "需要加强沟通" ∉ dedupe_similar
      ["需要加强沟通", "需要加强团队内部沟通", "完全不同的一句话在这里"] 2 (55 / 100 : ℚ) ∧
    (dedupe_similar ["需要加强沟通", "需要加强团队内部沟通", "完全不同的一句话在这里"] 2
      (55 / 100 : ℚ)).length = 2 ∧
    (∀ (phrases : List String) (maxR : Nat) (thr : ℚ),
      ∀ p ∈ dedupe_similar phrases maxR thr, ∃ q ∈ phrases, p = pyStrip q) := by
  have hstripB : pyStrip "需要加强团队内部沟通" = "需要加强团队内部沟通" := by decide
  have hsetBA : (charSet "需要加强团队内部沟通").filter
      (fun c => (charSet "完全不同的一句话在这里").contains c) = [] := by decide
  have hoverlap : setOverlap "需要加强团队内部沟通" "完全不同的一句话在这里" = 0 := by
    unfold setOverlap
    rw [hsetBA]
    norm_num
  have hdup : isDupPhrase (55 / 100 : ℚ) "需要加强团队内部沟通"
      "完全不同的一句话在这里" = false := by
    unfold isDupPhrase
    rw [hoverlap]
    rw [show occursIn "需要加强团队内部沟通" "完全不同的一句话在这里" = false from by decide]
    rw [show occursIn "完全不同的一句话在这里" "需要加强团队内部沟通" = false from by decide]
    rw [decide_eq_false (by norm_num : ¬((55 : ℚ) / 100 ≤ 0))]
    rfl
  have hany : List.any ["完全不同的一句话在这里"]
      (fun k => isDupPhrase (55 / 100 : ℚ) (pyStrip "需要加强团队内部沟通") k) = false := by
    simp only [hstripB, List.any_cons, List.any_nil, hdup, Bool.or_false]
  have hmain : dedupe_similar ["需要加强沟通", "需要加强团队内部沟通", "完全不同的一句话在这里"] 2
      (55 / 100 : ℚ) = ["完全不同的一句话在这里", "需要加强团队内部沟通"] := by
    unfold dedupe_similar
    rw [if_neg (by decide)]
    rw [show List.insertionSort lenGE
        ["需要加强沟通", "需要加强团队内部沟通", "完全不同的一句话在这里"] =
      ["完全不同的一句话在这里", "需要加强团队内部沟通", "需要加强沟通"] from by decide]
    rw [show dedupe_aux (55 / 100 : ℚ) 2
        ["完全不同的一句话在这里", "需要加强团队内部沟通", "需要加强沟通"] [] =
      dedupe_aux (55 / 100 : ℚ) 2 ["需要加强团队内部沟通", "需要加强沟通"]
        ["完全不同的一句话在这里"] from rfl]
    rw [dedupe_aux_cons_eq]
    rw [if_neg (show ¬(pyStrip "需要加强团队内部沟通").length < 3 from by decide)]
    rw [hany]
    simp only [Bool.false_eq_true, if_false]
    rw [hstripB]
    rw [if_pos (show (2 : ℕ) ≤
      (["完全不同的一句话在这里"] ++ ["需要加强团队内部沟通"]).length from by decide)]
    rfl
  refine ⟨hmain, by rw [hmain]; decide, by rw [hmain]; decide, by rw [hmain]; rfl, ?_⟩
  intro phrases maxR thr p hp
  unfold dedupe_similar at hp
  by_cases h : phrases.isEmpty
  · rw [if_pos h] at hp
    cases hp
  · rw [if_neg h] at hp
    rcases dedupe_aux_mem thr maxR _ [] p (List.take_subset _ _ hp) with ha | ⟨q, hq, hpq⟩
    · cases ha
    · exact ⟨q, (List.perm_insertionSort lenGE phrases).subset hq, hpq⟩

/-- C9 witness: the kept representative is the trim of an input phrase. -/
theorem c9_witness : ∃ q ∈ ["需要加强沟通", "需要加强团队内部沟通", "完全不同的一句话在这里"],
    "需要加强团队内部沟通" = pyStrip q :=
  c9_theorem.2.2.2.2 ["需要加强沟通", "需要加强团队内部沟通", "完全不同的一句话在这里"] 2
    (55 / 100 : ℚ) "需要加强团队内部沟通" (by rw [c9_theorem.1]; decide)

/-- C10: the deduplicator's output invariants — at most `m` representatives,
each trimmed and at least 3 characters long, and pairwise non-duplicate:
for any two kept phrases neither is a substring of the other and their
character-set overlap is strictly below the threshold. -/
theorem c10_theorem (phrases : List String) (m : Nat) (t : ℚ) :
    (dedupe_similar phrases m t).length ≤ m ∧
    (∀ p ∈ dedupe_similar phrases m t, pyStrip p = p ∧ 3 ≤ p.length) ∧
    (dedupe_similar phrases m t).Pairwise (fun a b =>
      occursIn a b = false ∧ occursIn b a = false ∧ setOverlap a b < t) := by
  unfold dedupe_similar
  by_cases h : phrases.isEmpty
  · rw [if_pos h]
    exact ⟨Nat.zero_le m, fun p hp => absurd hp (List.not_mem_nil p), List.Pairwise.nil⟩
  · rw [if_neg h]
    refine ⟨?_, ?_, ?_⟩
    · rw [List.length_take]
      exact min_le_left _ _
    · intro p hp
      exact dedupe_aux_invariant t m _ []
        (fun x hx => absurd hx (List.not_mem_nil x)) p (List.take_subset _ _ hp)
    · exact List.Pairwise.sublist (List.take_sublist _ _)
        (dedupe_aux_pairwise t m _ [] List.Pairwise.nil)

/-- C10 witness: the invariants evaluated on a one-phrase input. -/
theorem c10_witness : pyStrip "abcd" = "abcd" ∧ 3 ≤ ("abcd" : String).length := by
  have h := c10_theorem ["abcd"] 2 (1 / 2 : ℚ)
  exact h.2.1 "abcd" (by decide)

end ManagerReport
